import Mathlib

/-!
Verification development for the devrunauto repository.

The development shallowly embeds the Python sources `commerce_agent.py`,
`server.py` and `event_coordinator_agent.py`:

* pure string manipulation (`str.strip`, `str.replace`, `str.split`,
  substring membership, the regex `\d+(\.\d+)?`) is modelled over `List Char`;
* Python floats produced by the extractors are modelled as exact rationals
  with a distinguished point at `+infinity` (`PFloat`); `float()`'s
  saturation to `inf` at the IEEE-double overflow threshold is modelled
  exactly (`pyFloatOfNum`), while sub-threshold values are kept exact
  rather than rounded to the nearest double — no claim depends on
  sub-threshold rounding;
* character classes (`\d`, `str.strip` whitespace) are modelled over ASCII;
  the extractor theorem is accordingly scoped to ASCII inputs, where the
  model's classes coincide with Python's;
* fallible Python code (code that may raise) is modelled with `Except`;
* the external automation agent and the stdlib JSON decoder are modelled as
  explicit function parameters (`run`, `loads`); a small executable JSON
  decoder `jsonLoads` is provided for evaluating concrete scenarios.
-/

namespace DevRunAuto

/-! ## Python string primitives (modelled over `List Char`) -/

/-- Python ASCII whitespace, as stripped by `str.strip()`. -/
def pyIsSpace (c : Char) : Bool :=
  c = ' ' || c = '\t' || c = '\n' || c = '\r' || c = (Char.ofNat 11) || c = (Char.ofNat 12)

/-- Leading-whitespace removal, the first half of `str.strip()`. -/
def dropWs (cs : List Char) : List Char := cs.dropWhile pyIsSpace

/-- `str.strip()`: remove leading and trailing whitespace. -/
def pyStripL (cs : List Char) : List Char :=
  ((dropWs cs).reverse.dropWhile pyIsSpace).reverse

/-- `str.strip()` on `String`. -/
def pyStripS (s : String) : String := ⟨pyStripL s.data⟩

/-- `str.replace(",", "")` removes every comma. -/
def removeCommas (cs : List Char) : List Char := cs.filter (fun c => c ≠ ',')

/-- Maximal leading digit run and the remaining characters. -/
def digitsTake : List Char → List Char × List Char
  | [] => ([], [])
  | c :: cs =>
    if c.isDigit then
      let p := digitsTake cs
      (c :: p.1, p.2)
    else ([], c :: cs)

/-- Fractional continuation of the regex `\d+(\.\d+)?`: after the integer
digits, a dot followed by at least one digit extends the match. -/
def fracPart : List Char → List Char
  | '.' :: c :: cs => if c.isDigit then '.' :: (digitsTake (c :: cs)).1 else []
  | _ => []

/-- `re.search(r"\d+(\.\d+)?", s)`: the leftmost match of the numeral regex,
or `none` when the text has no digit. -/
def findNum : List Char → Option (List Char)
  | [] => none
  | c :: cs =>
    if c.isDigit then
      let p := digitsTake (c :: cs)
      some (p.1 ++ fracPart p.2)
    else findNum cs

/-- Numeric value of a digit character. -/
def digitVal (c : Char) : Nat := c.toNat - 48

/-- Value of a digit run, most significant digit first. -/
def digitsToNat (ds : List Char) : Nat := ds.foldl (fun a c => 10 * a + digitVal c) 0

/-- The exact mathematical value of a matched numeral `digits(.digits)?`:
the integer digits, plus the fraction digits scaled by their decimal weight.
(`float()` itself, with its saturation to `inf`, is `pyFloatOfNum` below.) -/
def numVal (m : List Char) : ℚ :=
  let ip := (digitsTake m).1
  let rest := (digitsTake m).2
  match rest with
  | '.' :: fs =>
    Rat.divInt (digitsToNat ip * 10 ^ fs.length + digitsToNat fs) (10 ^ fs.length)
  | _ => Rat.divInt (digitsToNat ip) 1

/-- A Python float as produced by the extractors: an exact rational or the
sentinel `float("inf")`. -/
inductive PFloat where
  | fin (q : ℚ)
  | inf
deriving DecidableEq, Repr

/-- Strict `<` on `PFloat`, with `inf` greater than every finite value and
`inf < inf` false, matching IEEE comparison on these values. -/
def PFloat.blt : PFloat → PFloat → Bool
  | .fin a, .fin b => decide (a < b)
  | .fin _, .inf => true
  | .inf, _ => false

/-- The real-value threshold at which CPython's `float()` (IEEE-754 double,
round-to-nearest-even) saturates to `inf`: the rounding midpoint
`2 ^ 1024 - 2 ^ 970` just above `DBL_MAX = 2 ^ 1024 - 2 ^ 971`. A decimal
string converts to `inf` exactly when its value reaches this threshold
(`float("9" * 309) == inf`, while one less than the threshold still converts
to `DBL_MAX`). -/
def overflowBound : ℚ := Rat.divInt (Int.ofNat (2 ^ 1024 - 2 ^ 970)) 1

/-- `float(match.group())`: saturates to `inf` at the IEEE overflow
threshold; below it the value is kept exact rather than rounded to the
nearest double (an idealization no claim depends on). `float()` of a numeral
string never raises. -/
def pyFloatOfNum (q : ℚ) : PFloat :=
  if overflowBound ≤ q then .inf else .fin q

/-- All characters ASCII: on this domain the model's digit and whitespace
classes coincide with Python's `\d` and `str.strip` (which additionally
cover non-ASCII Unicode code points). -/
def asciiOnly (s : String) : Bool := s.data.all (fun c => c.toNat < 128)

/-- `parse_price` from `commerce_agent.py`: strip commas and whitespace,
regex-match the first numeral, return it as a float (`inf` when the numeral
overflows the IEEE double range), `inf` when no numeral is present. The
Python `try`/`except` is unreachable in the model because every step is
total (`float()` saturates instead of raising). -/
def parse_price (s : String) : PFloat :=
  match findNum (pyStripL (removeCommas s.data)) with
  | some m => pyFloatOfNum (numVal m)
  | none => .inf

/-- `parse_rating` from `commerce_agent.py`: strip whitespace, regex-match
the first numeral, return it as a float (`inf` when the numeral overflows
the IEEE double range), `0.0` when no numeral is present. -/
def parse_rating (s : String) : PFloat :=
  match findNum (pyStripL s.data) with
  | some m => pyFloatOfNum (numVal m)
  | none => .fin 0

/-- A string contains a numeral: an ASCII digit. Python's `\d` also matches
other Unicode decimal digits, which is why the extractor theorem is scoped
to ASCII inputs. -/
def hasDigit (s : String) : Bool := s.data.any Char.isDigit

/-! ## Substring membership and `str.split` -/

/-- Character-list version of "does `p` begin `cs`". -/
def isPre : List Char → List Char → Bool
  | [], _ => true
  | _ :: _, [] => false
  | a :: as, b :: bs => a = b && isPre as bs

/-- Python's `sep in s`: some suffix of `cs` begins with `sep`. -/
def occursB (sep : List Char) : List Char → Bool
  | [] => isPre sep []
  | c :: rest => isPre sep (c :: rest) || occursB sep rest

/-- Split at the first occurrence of `sep`: the part before it and the part
after it, or `none` when `sep` does not occur. -/
def splitFirst (sep : List Char) : List Char → Option (List Char × List Char)
  | [] => none
  | c :: rest =>
    if isPre sep (c :: rest) then some ([], (c :: rest).drop sep.length)
    else (splitFirst sep rest).map (fun p => (c :: p.1, p.2))

/-- Repeated left-to-right splitting on non-overlapping occurrences; the fuel
only bounds the number of occurrences and is always given large enough. -/
def pySplitF (sep : List Char) : Nat → List Char → List (List Char)
  | 0, cs => [cs]
  | fuel + 1, cs =>
    match splitFirst sep cs with
    | Option.none => [cs]
    | some p => p.1 :: pySplitF sep fuel p.2

/-- Python's `s.split(sep)` for a nonempty separator. -/
def pySplit (sep cs : List Char) : List (List Char) :=
  match sep with
  | [] => [cs]
  | _ :: _ => pySplitF sep (cs.length + 1) cs

/-- The `"```json"` fence marker. -/
def fenceJson : List Char := "```json".data

/-- The plain `"```"` fence marker. -/
def fence3 : List Char := "```".data

/-- Markdown fence stripping from `perform_search`:
`json_str.split("```json")[1].split("```")[0].strip()` when the json fence
marker is present, the same with `"```"` when only a plain fence is present,
and the text unchanged otherwise. -/
def fenceStrip (cs : List Char) : List Char :=
  if occursB fenceJson cs then
    pyStripL (((pySplit fence3 ((pySplit fenceJson cs).getD 1 []))).getD 0 [])
  else if occursB fence3 cs then
    pyStripL (((pySplit fence3 ((pySplit fence3 cs).getD 1 []))).getD 0 [])
  else cs

/-- The markdown wrapping of the round-trip claim: the text placed inside a
fenced code block with the json fence tag. -/
def wrapJson (text : String) : String := "```json\n" ++ text ++ "\n```"

/-! ## Python values decoded from JSON

JSON numbers keep their source lexeme so that Python's `str()` of a decoded
number can be modelled without committing to a float-printing algorithm. -/

/-- A Python value as produced by `json.loads` (plus `None`). -/
inductive PyVal where
  | none
  | bool (b : Bool)
  | num (lexeme : String)
  | str (s : String)
  | list (xs : List PyVal)
  | dict (kvs : List (String × PyVal))

/-- Python `dict` lookup: `json.loads` keeps the last duplicate key, so the
lookup scans from the right. -/
def dictFind (kvs : List (String × PyVal)) (k : String) : Option PyVal :=
  (kvs.reverse.find? (fun kv => kv.1 = k)).map Prod.snd

/-- `str(v)` / `repr(v)` for decoded values, with fuel for the nested
containers (`rp = true` renders the `repr`, which quotes strings). -/
def pyReprAux : Nat → Bool → PyVal → List Char
  | 0, _, _ => []
  | _ + 1, rp, .str s => if rp then Char.ofNat 39 :: s.data ++ [Char.ofNat 39] else s.data
  | _ + 1, _, .num l => l.data
  | _ + 1, _, .bool true => "True".data
  | _ + 1, _, .bool false => "False".data
  | _ + 1, _, .none => "None".data
  | fuel + 1, _, .list xs =>
    '[' :: List.intercalate ", ".data (xs.map (pyReprAux fuel true)) ++ [']']
  | fuel + 1, _, .dict kvs =>
    '{' :: List.intercalate ", ".data (kvs.map (fun kv =>
        Char.ofNat 39 :: kv.1.data ++ [Char.ofNat 39] ++ ": ".data ++ pyReprAux fuel true kv.2)) ++ ['}']

/-- Python `str(v)`. The fuel only bounds container nesting depth; it is
faithful for every value whose nesting is below 1000, which covers all values
this development evaluates (universal theorems never unfold the printer). -/
def pyStr (v : PyVal) : String := ⟨pyReprAux 1000 false v⟩

/-- Python truthiness of the mantissa of a number lexeme. -/
def lexTruthy (l : String) : Bool :=
  (l.data.takeWhile (fun c => c ≠ 'e' && c ≠ 'E')).any (fun c => c.isDigit && c ≠ '0')

/-- Python truthiness (`if v:`). -/
def pyTruthy : PyVal → Bool
  | .none => false
  | .bool b => b
  | .num l => lexTruthy l
  | .str s => !s.data.isEmpty
  | .list xs => !xs.isEmpty
  | .dict kvs => !kvs.isEmpty

/-- Python iteration `for x in v`: lists yield their elements, strings yield
their characters, anything else raises `TypeError`. -/
def pyIter : PyVal → Except Unit (List PyVal)
  | .list xs => .ok xs
  | .str s => .ok (s.data.map (fun c => .str ⟨[c]⟩))
  | _ => .error ()

/-- Python subscript `v[k]` with a string key: `KeyError` when the key is
missing, `TypeError` when `v` is not a dict. -/
def pySubscript (v : PyVal) (k : String) : Except Unit PyVal :=
  match v with
  | .dict kvs =>
    match dictFind kvs k with
    | some x => .ok x
    | Option.none => .error ()
  | _ => .error ()

/-- Python `v.get(k, d)`: `AttributeError` when `v` is not a dict. -/
def pyGet (v : PyVal) (k : String) (d : PyVal) : Except Unit PyVal :=
  match v with
  | .dict kvs => .ok ((dictFind kvs k).getD d)
  | _ => .error ()

/-! ## An executable JSON decoder

`json.loads` is standard-library code, so the parsing pipeline below is
parameterised over the decoder; this small recursive-descent decoder gives the
parameter a concrete executable value for evaluating the scenarios. -/

/-- JSON whitespace skip. -/
def jsSkip (cs : List Char) : List Char :=
  cs.dropWhile (fun c => c = ' ' || c = '\t' || c = '\n' || c = '\r')

/-- Decode a JSON string body after the opening quote; returns the content and
the characters after the closing quote. -/
def jsString (fuel : Nat) (cs : List Char) : Except Unit (List Char × List Char) :=
  match fuel, cs with
  | 0, _ => .error ()
  | _, [] => .error ()
  | fuel + 1, c :: rest =>
    if c = '"' then .ok ([], rest)
    else if c = '\\' then
      match rest with
      | [] => .error ()
      | e :: rest2 =>
        let dec : Except Unit Char :=
          if e = 'n' then .ok '\n'
          else if e = 't' then .ok '\t'
          else if e = 'r' then .ok '\r'
          else if e = 'b' then .ok (Char.ofNat 8)
          else if e = 'f' then .ok (Char.ofNat 12)
          else if e = '/' then .ok '/'
          else if e = '"' then .ok '"'
          else if e = '\\' then .ok '\\'
          else .error ()
        match dec with
        | .error _ => .error ()
        | .ok d =>
          match jsString fuel rest2 with
          | .error _ => .error ()
          | .ok (body, rem) => .ok (d :: body, rem)
    else
      match jsString fuel rest with
      | .error _ => .error ()
      | .ok (body, rem) => .ok (c :: body, rem)

/-- Lexeme of a JSON number starting at `cs` (sign, digits, fraction,
exponent); returns the lexeme and the rest. -/
def jsNum (cs : List Char) : Except Unit (List Char × List Char) :=
  let (sign, cs1) :=
    match cs with
    | '-' :: rest => (['-'], rest)
    | _ => (([] : List Char), cs)
  let (ip, cs2) := digitsTake cs1
  if ip.isEmpty then .error ()
  else
    let (fp, cs3) :=
      match cs2 with
      | '.' :: rest =>
        let p := digitsTake rest
        if p.1.isEmpty then (([] : List Char), cs2) else ('.' :: p.1, p.2)
      | _ => (([] : List Char), cs2)
    let (ep, cs4) :=
      match cs3 with
      | e :: rest =>
        if e = 'e' || e = 'E' then
          match rest with
          | s :: rest2 =>
            if s = '+' || s = '-' then
              let p := digitsTake rest2
              if p.1.isEmpty then (([] : List Char), cs3) else (e :: s :: p.1, p.2)
            else
              let p := digitsTake rest
              if p.1.isEmpty then (([] : List Char), cs3) else (e :: p.1, p.2)
          | [] => (([] : List Char), cs3)
        else (([] : List Char), cs3)
      | [] => (([] : List Char), cs3)
    .ok (sign ++ ip ++ fp ++ ep, cs4)

mutual

/-- Decode one JSON value; fuel bounds the recursion. -/
def jsVal (fuel : Nat) (cs : List Char) : Except Unit (PyVal × List Char) :=
  match fuel with
  | 0 => .error ()
  | fuel + 1 =>
    match jsSkip cs with
    | [] => .error ()
    | c :: rest =>
      if c = '{' then
        match jsSkip rest with
        | '}' :: rem => .ok (.dict [], rem)
        | other => jsMembers fuel other []
      else if c = '[' then
        match jsSkip rest with
        | ']' :: rem => .ok (.list [], rem)
        | other => jsItems fuel other []
      else if c = '"' then
        match jsString (fuel + 1) rest with
        | .error _ => .error ()
        | .ok (body, rem) => .ok (.str ⟨body⟩, rem)
      else if c = 't' then
        if isPre "rue".data rest then .ok (.bool true, rest.drop 3) else .error ()
      else if c = 'f' then
        if isPre "alse".data rest then .ok (.bool false, rest.drop 4) else .error ()
      else if c = 'n' then
        if isPre "ull".data rest then .ok (.none, rest.drop 3) else .error ()
      else
        match jsNum (c :: rest) with
        | .error _ => .error ()
        | .ok (lex, rem) => .ok (.num ⟨lex⟩, rem)

/-- Decode the members of a JSON object after `{` (first member pending). -/
def jsMembers (fuel : Nat) (cs : List Char) (acc : List (String × PyVal)) :
    Except Unit (PyVal × List Char) :=
  match fuel with
  | 0 => .error ()
  | fuel + 1 =>
    match jsSkip cs with
    | '"' :: rest =>
      match jsString (fuel + 1) rest with
      | .error _ => .error ()
      | .ok (key, rem) =>
        match jsSkip rem with
        | ':' :: rem2 =>
          match jsVal fuel rem2 with
          | .error _ => .error ()
          | .ok (v, rem3) =>
            match jsSkip rem3 with
            | ',' :: rem4 => jsMembers fuel rem4 (acc ++ [(⟨key⟩, v)])
            | '}' :: rem4 => .ok (.dict (acc ++ [(⟨key⟩, v)]), rem4)
            | _ => .error ()
        | _ => .error ()
    | _ => .error ()

/-- Decode the items of a JSON array after `[` (first item pending). -/
def jsItems (fuel : Nat) (cs : List Char) (acc : List PyVal) :
    Except Unit (PyVal × List Char) :=
  match fuel with
  | 0 => .error ()
  | fuel + 1 =>
    match jsVal fuel cs with
    | .error _ => .error ()
    | .ok (v, rem) =>
      match jsSkip rem with
      | ',' :: rem2 => jsItems fuel rem2 (acc ++ [v])
      | ']' :: rem2 => .ok (.list (acc ++ [v]), rem2)
      | _ => .error ()

end

/-- `json.loads`: decode one value and require only whitespace after it. -/
def jsonLoads (s : String) : Except Unit PyVal :=
  match jsVal (2 * s.data.length + 8) s.data with
  | .error _ => .error ()
  | .ok (v, rem) => if (jsSkip rem).isEmpty then .ok v else .error ()

/-! ## The result data model and `perform_search` (from `commerce_agent.py`) -/

/-- `SessionResult.status`. -/
inductive Status where
  | success
  | failed
deriving DecidableEq

/-- A candidate item after normalization: the decoded dict together with the
`numeric_price`/`numeric_rating` entries that `perform_search` adds to it. -/
structure NormItem where
  data : List (String × PyVal)
  numeric_price : PFloat
  numeric_rating : PFloat

/-- The `result_data` dict built by `perform_search`. -/
structure SessionResult where
  platform : String
  status : Status
  items : List NormItem
  best_item : Option NormItem
  raw_response : String

/-- The sort key comparison for `valid_items.sort(key=lambda x:
(x["numeric_price"], -x["numeric_rating"]))`: strict `<` on the pair
(price, negated rating). The rating comparison is stated un-negated:
`-x < -y` holds exactly when `y < x` on the extended float line, including
the infinities. -/
def keyLt (a b : NormItem) : Bool :=
  a.numeric_price.blt b.numeric_price ||
    (a.numeric_price = b.numeric_price &&
      b.numeric_rating.blt a.numeric_rating)

/-- Stable insertion of an earlier element into an already-sorted list of
later elements (an element moves left past another only when its key is
strictly smaller). -/
def insertItem (a : NormItem) : List NormItem → List NormItem
  | [] => [a]
  | b :: bs => if keyLt b a then b :: insertItem a bs else a :: b :: bs

/-- The stable sort performed by `valid_items.sort`. -/
def sortItems : List NormItem → List NormItem
  | [] => []
  | a :: as => insertItem a (sortItems as)

/-- The normalization loop of `perform_search`: each candidate must be a dict
(`item.get` raises `AttributeError` otherwise); `numeric_price` and
`numeric_rating` come from the extractors over `str()` of the raw fields with
the documented defaults, and a candidate survives only when
`numeric_price > 0`. A raised error anywhere discards the whole batch, because
the Python loop's results are only published after it completes. -/
def normItems : List PyVal → Except Unit (List NormItem)
  | [] => .ok []
  | v :: vs =>
    match v with
    | .dict kvs =>
      let np := parse_price (pyStr ((dictFind kvs "price").getD (.str "999999")))
      let nr := parse_rating (pyStr ((dictFind kvs "rating").getD (.str "0")))
      match normItems vs with
      | .error e => .error e
      | .ok rest =>
        .ok (if (PFloat.fin 0).blt np then ⟨kvs, np, nr⟩ :: rest else rest)
    | _ => .error ()

/-- The guarded decode of `perform_search`: fence stripping already applied,
the text starts with `[` or `{`; decode, promote a single object to a
one-element list, iterate and normalize. -/
def parseAttempt (loads : String → Except Unit PyVal) (js : String) :
    Except Unit (List NormItem) :=
  match loads js with
  | .error e => .error e
  | .ok v =>
    let promoted : PyVal :=
      match v with
      | .dict kvs => .list [.dict kvs]
      | x => x
    match pyIter promoted with
    | .error e => .error e
    | .ok lst => normItems lst

/-- Does the stripped text start with `[` or `{`? -/
def startsWithBracket (s : String) : Bool :=
  match s.data with
  | '[' :: _ => true
  | '{' :: _ => true
  | _ => false

/-- The result-parsing stage of `perform_search` (everything from building
`result_data` to the end of the `try`): `raw` is `str(output)`. On any caught
error the initial failed result with the raw text is returned; on success the
surviving items are sorted in place and the best item is their head. -/
def parseStage (loads : String → Except Unit PyVal) (app_name raw : String) :
    SessionResult :=
  let base : SessionResult := ⟨app_name, .failed, [], none, raw⟩
  let json_str : String := ⟨fenceStrip (pyStripL raw.data)⟩
  if startsWithBracket json_str then
    match parseAttempt loads json_str with
    | .error _ => base
    | .ok valid =>
      { base with
        status := .success
        items := sortItems valid
        best_item := (sortItems valid).head? }
  else base

/-- The goal string `perform_search` hands to the agent. -/
def buildGoal (app_name query item_type : String) : String :=
  "Open " ++ app_name ++ ". Search for '" ++ query ++ "'. " ++
    "Look at the search results and find the best " ++ item_type ++ "s. " ++
    "Return a JSON list of the top 3 items with keys: title, price, rating. " ++
    "The output must be a valid JSON string."

/-- `perform_search`: build the goal, run the agent, and parse. The agent
invocation `await agent.run()` is outside the `try`, so a fault raised by the
agent propagates to the caller; only the parse stage is protected. -/
def perform_search (loads : String → Except Unit PyVal)
    (run : String → Except String String) (app_name query item_type : String) :
    Except String SessionResult :=
  match run (buildGoal app_name query item_type) with
  | .error e => .error e
  | .ok output => .ok (parseStage loads app_name output)

/-! ## The comparison block and `main_async` -/

/-- The winner-selection block at the end of `main_async` (platform best items
`param1`/`param2`, platform names `platforms[0]`/`platforms[1]`). -/
def choose_winner (param1 param2 : Option NormItem) (platA platB : String) :
    Option String × String :=
  match param1, param2 with
  | some i1, some i2 =>
    if i1.numeric_price.blt i2.numeric_price then
      (some platA, platA ++ " is cheaper.")
    else if i2.numeric_price.blt i1.numeric_price then
      (some platB, platB ++ " is cheaper.")
    else if i2.numeric_rating.blt i1.numeric_rating then
      (some platA, "Prices equal, but " ++ platA ++ " has better rating.")
    else
      (some platB, "Prices equal, but " ++ platB ++ " has better rating.")
  | some _, none => (some platA, "Only found on " ++ platA ++ ".")
  | none, some _ => (some platB, "Only found on " ++ platB ++ ".")
  | none, none => (none, "No valid items found.")

/-- The two task kinds `argparse` admits. -/
inductive TaskKind where
  | shopping
  | food

/-- The platform pair and item-type label for a task kind. -/
def platformsOf : TaskKind → List String × String
  | .shopping => (["Amazon", "Flipkart"], "product")
  | .food => (["Zomato", "Swiggy"], "food")

/-- Category name printed in the final JSON. -/
def categoryOf : TaskKind → String
  | .shopping => "shopping"
  | .food => "food"

/-- The final JSON document `main_async` prints. -/
structure MainOutput where
  query : String
  category : String
  winner_platform : Option String
  recommendation : String
  details : List (String × SessionResult)

/-- The sequential session loop of `main_async`: one `perform_search` per
platform, in order; a raised fault aborts the loop (and the workflow). -/
def runSessions (loads : String → Except Unit PyVal)
    (run : String → Except String String) (query item_type : String) :
    List String → Except String (List (String × SessionResult))
  | [] => .ok []
  | p :: ps =>
    match perform_search loads run p query item_type with
    | .error e => .error e
    | .ok r =>
      match runSessions loads run query item_type ps with
      | .error e => .error e
      | .ok rest => .ok ((p.toLower, r) :: rest)

/-- Association-list lookup for the `results` dict (keys are distinct in the
modelled runs, so first match suffices). -/
def resultsGet (results : List (String × SessionResult)) (k : String) :
    Option SessionResult :=
  (results.find? (fun kv => kv.1 = k)).map Prod.snd

/-- `main_async` from `commerce_agent.py`: run the platform sessions strictly
sequentially, then pick the winner. -/
def main_async (loads : String → Except Unit PyVal)
    (run : String → Except String String) (task : TaskKind) (query : String) :
    Except String MainOutput :=
  let pi := platformsOf task
  match runSessions loads run query pi.2 pi.1 with
  | .error e => .error e
  | .ok results =>
    let p0 := pi.1.getD 0 ""
    let p1 := pi.1.getD 1 ""
    let param1 := (resultsGet results p0.toLower).bind SessionResult.best_item
    let param2 := (resultsGet results p1.toLower).bind SessionResult.best_item
    let wr := choose_winner param1 param2 p0 p1
    .ok ⟨query, categoryOf task, wr.1, wr.2, results⟩

/-! ## `server.py`: the subscriber registry -/

/-- A connection handle. -/
def Conn : Type := Nat

/-- `ConnectionManager.connect` (after the accept): append the socket to
`active_connections`. -/
def connect (conns : List Nat) (ws : Nat) : List Nat := conns ++ [ws]

/-- Python `list.remove`: drop the first occurrence, raise `ValueError` when
the element is not present. -/
def pyRemove (l : List Nat) (a : Nat) : Except Unit (List Nat) :=
  match l with
  | [] => .error ()
  | x :: xs =>
    if x = a then .ok xs
    else
      match pyRemove xs a with
      | .error e => .error e
      | .ok r => .ok (x :: r)

/-- `ConnectionManager.disconnect`: `self.active_connections.remove(websocket)`. -/
def disconnect (conns : List Nat) (ws : Nat) : Except Unit (List Nat) :=
  pyRemove conns ws

/-- `ConnectionManager.broadcast`: send to each current subscriber in order,
with each individual send wrapped in `try`/`except: pass`. `sendRes` is the
outcome of `connection.send_text` for each subscriber. The returned trace
records every attempted subscriber and whether its send succeeded; the
function is total, so no fault escapes the loop. -/
def broadcast (sendRes : Nat → Except Unit Unit) : List Nat → List (Nat × Bool)
  | [] => []
  | c :: rest =>
    match sendRes c with
    | .ok _ => (c, true) :: broadcast sendRes rest
    | .error _ => (c, false) :: broadcast sendRes rest

/-! ## `server.py`: the background task runner

`run_agent_task` is modelled as a trace of the events it broadcasts. The
agent classes it drives (`CommerceAgent.execute_task`,
`RideComparisonAgent.compare_rides`, `PharmacyAgent.compare_prices`,
`EventCoordinatorAgent.orchestrate_event`) are repository code not present
under `src/`, so each call is an explicit outcome parameter: either a raised
fault or a returned Python value. The theorems quantify over all outcomes,
which covers every behaviour of the missing code. -/

/-- One broadcast event of `run_agent_task`. -/
inductive Ev where
  | start (persona : String)
  | progress (msg : String)
  | success
  | nodata
  | errored

/-- Terminal events: `✅ Task Complete`, `❌ Task Failed or Returned No Data`,
`🔥 Error`. -/
def isTerminal : Ev → Bool
  | .success => true
  | .nodata => true
  | .errored => true
  | _ => false

/-- The final `if result: ✅ else: ❌` broadcast (Python truthiness). -/
def terminalFor (r : PyVal) : Ev :=
  if pyTruthy r then .success else .nodata

/-- Python `v == "failed"`: true exactly for the equal string (`==` across
types is `False`, never an error). -/
def eqFailedStr (v : PyVal) : Bool :=
  match v with
  | .str s => s = "failed"
  | _ => false

/-- The outcomes of the external agent calls a single task can make. -/
structure AgentCalls where
  shop1 : Except Unit PyVal
  shop2 : Except Unit PyVal
  ride : Except Unit PyVal
  med : Except Unit PyVal
  coord : Except Unit PyVal

/-- `run_agent_task`: broadcast the start notice, dispatch on the persona
inside `try`, broadcast exactly one of `✅`/`❌` at the end of the `try`, and
broadcast `🔥` from the `except` when anything raised. -/
def run_agent_task (persona : String) (o : AgentCalls) : List Ev :=
  .start persona ::
    (if persona = "shopper" then
      .progress "Searching on Amazon/Flipkart" ::
        (match o.shop1 with
        | .error _ => [.errored]
        | .ok r1 =>
          match pySubscript r1 "status" with
          | .error _ => [.errored]
          | .ok v =>
            if eqFailedStr v then
              .progress "Amazon failed, trying Flipkart" ::
                (match o.shop2 with
                | .error _ => [.errored]
                | .ok r2 => [terminalFor r2])
            else [terminalFor r1])
    else if persona = "rider" then
      .progress "Comparing rides" ::
        (match o.ride with
        | .error _ => [.errored]
        | .ok fr =>
          match pyGet fr "best_deal" (.dict [("status", .str "failed")]) with
          | .error _ => [.errored]
          | .ok r => [terminalFor r])
    else if persona = "patient" then
      .progress "Searching medicine" ::
        (match o.med with
        | .error _ => [.errored]
        | .ok fr =>
          match pyGet fr "best_option" (.dict [("status", .str "failed")]) with
          | .error _ => [.errored]
          | .ok r => [terminalFor r])
    else if persona = "coordinator" then
      .progress "Orchestrating event" ::
        (match o.coord with
        | .error _ => [.errored]
        | .ok _ =>
          [terminalFor (.dict
            [("status", .str "success"),
             ("message", .str "Event Orchestration Complete")])])
    else [terminalFor .none])

/-! ## Session scheduling (for the one-session-at-a-time property)

`asyncio.create_task(run_agent_task(payload))` in `create_task` schedules the
task with no lock, semaphore or queue anywhere in `server.py`, so under
cooperative scheduling any interleaving at `await` points is admissible. A
session's execution is bracketed by a begin step (the agent invocation starts)
and an end step (it returns); `await agent.run()` suspends between them. -/

/-- One scheduling-relevant step of a task. -/
inductive SStep where
  | sbeg (task : Nat)
  | sfin (task : Nat)
deriving DecidableEq

/-- The session steps of one workflow running the given platforms strictly in
sequence (the `for plat in platforms` loop of `main_async`). -/
def mainSessionTrace (t : Nat) : List String → List SStep
  | [] => []
  | _ :: ps => .sbeg t :: .sfin t :: mainSessionTrace t ps

/-- Modelled from the spec: the agent classes `run_agent_task` drives
(`CommerceAgent.execute_task` and peers) are repository code not under
`src/`; per the spec a SessionRunner "wraps one automation-session
invocation", owning the device from the invocation's start to its return,
with no admission gate of its own. The session steps of one background
`run_agent_task` are therefore the begin/end bracket of its first
device-owning agent invocation. -/
def serverTaskTrace (t : Nat) : List SStep := [.sbeg t, .sfin t]

/-- All interleavings of two step lists: the admissible cooperative schedules
of two concurrently created tasks in the absence of any shared gate. -/
inductive Interleave : List SStep → List SStep → List SStep → Prop where
  | nil : Interleave [] [] []
  | left {x xs ys zs} : Interleave xs ys zs → Interleave (x :: xs) ys (x :: zs)
  | right {y xs ys zs} : Interleave xs ys zs → Interleave xs (y :: ys) (y :: zs)

/-- Does the trace keep at most one session open at every point? -/
def serializedFrom (active : Bool) : List SStep → Bool
  | [] => true
  | .sbeg _ :: rest => if active then false else serializedFrom true rest
  | .sfin _ :: rest => serializedFrom false rest

/-- A trace is serialized when no session begins while another is open. -/
def serialized (l : List SStep) : Bool := serializedFrom false l

/-- The value of a `PFloat` in the linearly ordered `WithTop ℚ`. -/
def PFloat.q : PFloat → WithTop ℚ
  | .fin a => (a : WithTop ℚ)
  | .inf => ⊤

/-- The sort key of an item in the lexicographic order on price and negated
rating; the rating coordinate lives in the order dual, the exact image of
negation on the extended float line. -/
def sortKey (a : NormItem) : Lex (WithTop ℚ × OrderDual (WithTop ℚ)) :=
  toLex (a.numeric_price.q, OrderDual.toDual a.numeric_rating.q)

/-! ## Order lemmas for `PFloat` and the sort key -/

theorem PFloat.blt_iff (a b : PFloat) : a.blt b = true ↔ a.q < b.q := by
  cases a <;> cases b <;>
    simp [PFloat.blt, PFloat.q, WithTop.coe_lt_coe, WithTop.coe_lt_top]

theorem PFloat.q_injective : Function.Injective PFloat.q := by
  intro a b h
  cases a <;> cases b <;> simp_all [PFloat.q]

theorem keyLt_iff (a b : NormItem) : keyLt a b = true ↔ sortKey a < sortKey b := by
  unfold keyLt sortKey
  rw [Prod.Lex.lt_iff]
  simp only [Bool.or_eq_true_iff, Bool.and_eq_true_iff, decide_eq_true_eq,
    PFloat.blt_iff, OrderDual.toDual_lt_toDual]
  constructor
  · rintro (h | ⟨he, hr⟩)
    · exact Or.inl h
    · exact Or.inr ⟨by rw [he], hr⟩
  · rintro (h | ⟨he, hr⟩)
    · exact Or.inl h
    · exact Or.inr ⟨PFloat.q_injective he, hr⟩

theorem PFloat.blt_irrefl (a : PFloat) : a.blt a = false := by
  cases h : a.blt a with
  | false => rfl
  | true => exact absurd ((PFloat.blt_iff a a).1 h) (lt_irrefl _)

theorem PFloat.blt_asymm {a b : PFloat} (h : a.blt b = true) : b.blt a = false := by
  cases hx : b.blt a with
  | false => rfl
  | true =>
    exact absurd ((PFloat.blt_iff b a).1 hx) (not_lt_of_gt ((PFloat.blt_iff a b).1 h))

theorem keyLt_false_iff (a b : NormItem) :
    keyLt a b = false ↔ sortKey b ≤ sortKey a := by
  rw [← not_lt, ← keyLt_iff]
  cases h : keyLt a b <;> simp [h]

theorem keyLt_asymm {a b : NormItem} (h : keyLt a b = true) : keyLt b a = false := by
  rw [keyLt_iff] at h
  rw [keyLt_false_iff]
  exact le_of_lt h

theorem keyLe_trans {a b c : NormItem} (hba : keyLt b a = false)
    (hcb : keyLt c b = false) : keyLt c a = false := by
  rw [keyLt_false_iff] at hba hcb ⊢
  exact le_trans hba hcb

/-! ## Sortedness of the in-place sort -/

/-- The order in which a sorted item list is ascending: a later element is
never strictly below an earlier one. -/
def keyAsc (a b : NormItem) : Prop := keyLt b a = false

theorem mem_insertItem {a c : NormItem} {l : List NormItem} :
    c ∈ insertItem a l ↔ c = a ∨ c ∈ l := by
  induction l with
  | nil => simp [insertItem]
  | cons b bs ih =>
    unfold insertItem
    cases hc : keyLt b a with
    | true =>
      simp only [if_true, List.mem_cons, ih]
      tauto
    | false =>
      simp only [Bool.false_eq_true, if_false, List.mem_cons]

theorem pairwise_insertItem {a : NormItem} {l : List NormItem}
    (h : List.Pairwise keyAsc l) : List.Pairwise keyAsc (insertItem a l) := by
  induction l with
  | nil => simp [insertItem, List.pairwise_cons]
  | cons b bs ih =>
    rcases List.pairwise_cons.1 h with ⟨hb, hbs⟩
    unfold insertItem
    cases hc : keyLt b a with
    | true =>
      simp only [if_true, List.pairwise_cons]
      refine ⟨?_, ih hbs⟩
      intro c hcmem
      rcases mem_insertItem.1 hcmem with rfl | hcin
      · exact keyLt_asymm hc
      · exact hb c hcin
    | false =>
      simp only [Bool.false_eq_true, if_false, List.pairwise_cons]
      constructor
      · intro c hcmem
        rcases List.mem_cons.1 hcmem with rfl | hcin
        · exact hc
        · exact keyLe_trans hc (hb c hcin)
      · exact ⟨hb, hbs⟩

theorem pairwise_sortItems (l : List NormItem) :
    List.Pairwise keyAsc (sortItems l) := by
  induction l with
  | nil => simp [sortItems]
  | cons a as ih => exact pairwise_insertItem ih

/-- C10 (implicit): in every `SessionResult` the parse stage produces, the
`items` sequence is sorted ascending by `(numeric_price, -numeric_rating)`
(the surviving list is sorted in place before being published), and
`best_item` is exactly the head of that sorted sequence (`valid_items[0]`,
absent when no item survived). -/
theorem C10_items_sorted_best_is_head (loads : String → Except Unit PyVal)
    (app raw : String) :
    List.Pairwise keyAsc (parseStage loads app raw).items ∧
      (parseStage loads app raw).best_item = (parseStage loads app raw).items.head? := by
  unfold parseStage
  by_cases hb : startsWithBracket ⟨fenceStrip (pyStripL raw.data)⟩ = true
  · simp only [hb, if_true]
    cases hp : parseAttempt loads ⟨fenceStrip (pyStripL raw.data)⟩ with
    | error e => exact ⟨List.Pairwise.nil, rfl⟩
    | ok valid => exact ⟨pairwise_sortItems valid, rfl⟩
  · simp only [hb]
    exact ⟨List.Pairwise.nil, rfl⟩

/-! ## C2: winner selection -/

/-- C2: winner selection over the two per-platform best items. Both present:
strictly lower `numeric_price` wins; on a price tie, strictly higher
`numeric_rating` wins; on a full tie platform B is chosen. Exactly one
present: that platform wins. Neither: no winner, and the recommendation says
no valid items were found. `PFloat.blt` is the model's strict float `<`. -/
theorem C2_choose_winner (i1 i2 : NormItem) (pA pB : String) :
    (i1.numeric_price.blt i2.numeric_price = true →
      (choose_winner (some i1) (some i2) pA pB).1 = some pA)
  ∧ (i2.numeric_price.blt i1.numeric_price = true →
      (choose_winner (some i1) (some i2) pA pB).1 = some pB)
  ∧ (i1.numeric_price = i2.numeric_price →
      i2.numeric_rating.blt i1.numeric_rating = true →
      (choose_winner (some i1) (some i2) pA pB).1 = some pA)
  ∧ (i1.numeric_price = i2.numeric_price →
      i1.numeric_rating.blt i2.numeric_rating = true →
      (choose_winner (some i1) (some i2) pA pB).1 = some pB)
  ∧ (i1.numeric_price = i2.numeric_price → i1.numeric_rating = i2.numeric_rating →
      (choose_winner (some i1) (some i2) pA pB).1 = some pB)
  ∧ ((choose_winner (some i1) none pA pB).1 = some pA)
  ∧ ((choose_winner none (some i2) pA pB).1 = some pB)
  ∧ (choose_winner none none pA pB = (none, "No valid items found.")) := by
  refine ⟨?_, ?_, ?_, ?_, ?_, rfl, rfl, rfl⟩
  · intro h
    simp [choose_winner, h]
  · intro h
    have h1 : i1.numeric_price.blt i2.numeric_price = false := PFloat.blt_asymm h
    simp [choose_winner, h, h1]
  · intro hpe hr
    have h1 : i1.numeric_price.blt i2.numeric_price = false := by
      rw [hpe, PFloat.blt_irrefl]
    have h2 : i2.numeric_price.blt i1.numeric_price = false := by
      rw [hpe, PFloat.blt_irrefl]
    simp [choose_winner, h1, h2, hr]
  · intro hpe hr
    have h1 : i1.numeric_price.blt i2.numeric_price = false := by
      rw [hpe, PFloat.blt_irrefl]
    have h2 : i2.numeric_price.blt i1.numeric_price = false := by
      rw [hpe, PFloat.blt_irrefl]
    have h3 : i2.numeric_rating.blt i1.numeric_rating = false :=
      PFloat.blt_asymm hr
    simp [choose_winner, h1, h2, h3]
  · intro hpe hr
    have h1 : i1.numeric_price.blt i2.numeric_price = false := by
      rw [hpe, PFloat.blt_irrefl]
    have h2 : i2.numeric_price.blt i1.numeric_price = false := by
      rw [hpe, PFloat.blt_irrefl]
    have h3 : i2.numeric_rating.blt i1.numeric_rating = false := by
      rw [hr, PFloat.blt_irrefl]
    simp [choose_winner, h1, h2, h3]

/-- Witness for C2: scenario 3 of the spec — equal price `100` and equal
rating `4.0` on both platforms resolve to platform B. -/
theorem C2_witness :
    (choose_winner
      (some ⟨[], .fin 100, .fin 4⟩) (some ⟨[], .fin 100, .fin 4⟩)
      "Amazon" "Flipkart").1 = some "Flipkart" :=
  (C2_choose_winner ⟨[], .fin 100, .fin 4⟩ ⟨[], .fin 100, .fin 4⟩
      "Amazon" "Flipkart").2.2.2.2.1 rfl rfl

/-! ## C4: disconnect tolerance -/

theorem pyRemove_of_mem {l : List Nat} {a : Nat} (h : a ∈ l) :
    ∃ r, pyRemove l a = .ok r := by
  induction l with
  | nil => cases h
  | cons x xs ih =>
    by_cases hx : x = a
    · exact ⟨xs, by simp [pyRemove, hx]⟩
    · have hmem : a ∈ xs := by
        rcases List.mem_cons.1 h with rfl | hm
        · exact absurd rfl hx
        · exact hm
      rcases ih hmem with ⟨r, hr⟩
      exact ⟨x :: r, by simp [pyRemove, hx, hr]⟩

theorem pyRemove_of_not_mem {l : List Nat} {a : Nat} (h : a ∉ l) :
    pyRemove l a = .error () := by
  induction l with
  | nil => rfl
  | cons x xs ih =>
    have hx : ¬ x = a := fun he => h (he ▸ List.mem_cons_self x xs)
    have hxs : a ∉ xs := fun hm => h (List.mem_cons_of_mem x hm)
    simp [pyRemove, hx, ih hxs]

/-- C4 counterexample: `disconnect` is `list.remove`, which raises
`ValueError` when the subscriber is absent — so removing a connection that
was never registered (equivalently, the second of two disconnects of the same
connection) raises instead of leaving the registry intact. -/
theorem C4_counterexample :
    disconnect (connect [] 7) 7 = .ok [] ∧ disconnect [] 7 = .error () :=
  ⟨rfl, rfl⟩

/-- C4 as amended: `disconnect` succeeds precisely when the connection is
currently registered; on an absent connection it raises `ValueError`, so it is
not safe to call twice for a connection registered once. -/
theorem C4_amended (conns : List Nat) (ws : Nat) :
    (ws ∈ conns → ∃ rest, disconnect conns ws = .ok rest)
  ∧ (ws ∉ conns → disconnect conns ws = .error ()) :=
  ⟨fun h => pyRemove_of_mem h, fun h => pyRemove_of_not_mem h⟩

/-- Witness for C4 at a concrete registry: removing a registered connection
succeeds, removing an unregistered one raises. -/
theorem C4_witness :
    (∃ rest, disconnect [3, 5] 3 = .ok rest) ∧ disconnect [3, 5] 7 = .error () :=
  ⟨(C4_amended [3, 5] 3).1 (by decide), (C4_amended [3, 5] 7).2 (by decide)⟩

/-! ## C7: best-effort broadcast -/

/-- C7: `broadcast` attempts delivery to every current subscriber in order,
swallows each individual send failure (the function is total, so no fault
escapes), and still delivers to every subscriber whose send succeeds. -/
theorem C7_broadcast (conns : List Nat) (sendRes : Nat → Except Unit Unit) :
    ((broadcast sendRes conns).map Prod.fst = conns)
  ∧ (∀ c ∈ conns, sendRes c = .ok () → (c, true) ∈ broadcast sendRes conns) := by
  constructor
  · induction conns with
    | nil => rfl
    | cons c rest ih =>
      cases hs : sendRes c with
      | ok u => simp [broadcast, hs, ih]
      | error e => simp [broadcast, hs, ih]
  · intro c hc hok
    induction conns with
    | nil => cases hc
    | cons d rest ih =>
      rcases List.mem_cons.1 hc with rfl | hm
      · simp [broadcast, hok]
      · cases hs : sendRes d with
        | ok u => simp [broadcast, hs, ih hm]
        | error e => simp [broadcast, hs, ih hm]

/-- Witness for C7: subscriber 2's send fails mid-broadcast; subscriber 3,
later in the registry, still receives the event. -/
theorem C7_witness :
    (3 ∈ [1, 2, 3]) ∧
      ((3, true) ∈ broadcast
        (fun c => if c = 2 then Except.error () else Except.ok ()) [1, 2, 3]) :=
  ⟨by decide,
    (C7_broadcast [1, 2, 3] (fun c => if c = 2 then Except.error () else Except.ok ())).2
      3 (by decide) rfl⟩

/-! ## C5: exactly one terminal broadcast per task -/

theorem isTerminal_terminalFor (r : PyVal) : isTerminal (terminalFor r) = true := by
  unfold terminalFor
  by_cases h : pyTruthy r = true <;> simp [h, isTerminal]

theorem isTerminal_progress (m : String) : isTerminal (.progress m) = false := rfl

theorem isTerminal_start (m : String) : isTerminal (.start m) = false := rfl

/-- C5: for every submitted persona (including unknown ones) and every
combination of agent-call outcomes (including raising ones), `run_agent_task`
broadcasts exactly one terminal event: the success notice, the no-data
notice, or the error notice. -/
theorem C5_one_terminal_event (persona : String) (o : AgentCalls) :
    ((run_agent_task persona o).countP isTerminal) = 1 := by
  unfold run_agent_task
  rcases o with ⟨s1, s2, rd, md, cd⟩
  simp only [List.countP_cons, isTerminal_start, Bool.false_eq_true, if_false, Nat.add_zero]
  by_cases h1 : persona = "shopper"
  · simp only [h1, if_true]
    cases s1 with
    | error e => simp [List.countP_cons, isTerminal, isTerminal_progress]
    | ok r1 =>
      cases hsub : pySubscript r1 "status" with
      | error e =>
        simp [hsub, List.countP_cons, isTerminal, isTerminal_progress]
      | ok v =>
        cases hf : eqFailedStr v with
        | true =>
          cases s2 with
          | error e =>
            simp [hsub, hf, List.countP_cons, isTerminal, isTerminal_progress]
          | ok r2 =>
            simp [hsub, hf, List.countP_cons, isTerminal_terminalFor,
              isTerminal_progress]
        | false =>
          simp [hsub, hf, List.countP_cons, isTerminal_terminalFor,
            isTerminal_progress]
  · by_cases h2 : persona = "rider"
    · simp only [h1, h2, if_true, if_false]
      cases rd with
      | error e => simp [List.countP_cons, isTerminal, isTerminal_progress]
      | ok fr =>
        cases hg : pyGet fr "best_deal" (.dict [("status", .str "failed")]) with
        | error e =>
          simp [hg, List.countP_cons, isTerminal, isTerminal_progress]
        | ok r =>
          simp [hg, List.countP_cons, isTerminal_terminalFor, isTerminal_progress]
    · by_cases h3 : persona = "patient"
      · simp only [h1, h2, h3, if_true, if_false]
        cases md with
        | error e => simp [List.countP_cons, isTerminal, isTerminal_progress]
        | ok fr =>
          cases hg : pyGet fr "best_option" (.dict [("status", .str "failed")]) with
          | error e =>
            simp [hg, List.countP_cons, isTerminal, isTerminal_progress]
          | ok r =>
            simp [hg, List.countP_cons, isTerminal_terminalFor, isTerminal_progress]
      · by_cases h4 : persona = "coordinator"
        · simp only [h1, h2, h3, h4, if_true, if_false]
          cases cd with
          | error e => simp [List.countP_cons, isTerminal, isTerminal_progress]
          | ok u =>
            simp [List.countP_cons, isTerminal_terminalFor, isTerminal_progress]
        · simp [h1, h2, h3, h4, List.countP_cons, isTerminal_terminalFor]


/-! ## C6: the extractors never raise and bias failures out of winning -/

theorem not_digit_of_space {c : Char} (h : pyIsSpace c = true) :
    c.isDigit = false := by
  unfold pyIsSpace at h
  simp only [Bool.or_eq_true_iff, decide_eq_true_eq] at h
  rcases h with ((((h | h) | h) | h) | h) | h <;> subst h <;> decide

theorem any_digit_dropWhile (cs : List Char) :
    (cs.dropWhile pyIsSpace).any Char.isDigit = cs.any Char.isDigit := by
  induction cs with
  | nil => rfl
  | cons c rest ih =>
    cases hs : pyIsSpace c with
    | true =>
      rw [List.dropWhile_cons_of_pos hs, ih, List.any_cons, not_digit_of_space hs]
      simp
    | false => rw [List.dropWhile_cons_of_neg (by simp [hs])]

theorem any_digit_reverse (cs : List Char) :
    cs.reverse.any Char.isDigit = cs.any Char.isDigit :=
  List.any_reverse ..

theorem any_digit_strip (cs : List Char) :
    (pyStripL cs).any Char.isDigit = cs.any Char.isDigit := by
  unfold pyStripL dropWs
  rw [any_digit_reverse, any_digit_dropWhile, any_digit_reverse,
    any_digit_dropWhile]

theorem any_digit_removeCommas (cs : List Char) :
    (removeCommas cs).any Char.isDigit = cs.any Char.isDigit := by
  unfold removeCommas
  rw [Bool.eq_iff_iff]
  simp only [List.any_eq_true, List.mem_filter]
  constructor
  · rintro ⟨x, ⟨hx, _⟩, hd⟩
    exact ⟨x, hx, hd⟩
  · rintro ⟨x, hx, hd⟩
    refine ⟨x, ⟨hx, ?_⟩, hd⟩
    simp only [decide_eq_true_eq]
    intro he
    subst he
    exact absurd hd (by decide)

theorem findNum_eq_none (cs : List Char) (h : cs.any Char.isDigit = false) :
    findNum cs = none := by
  induction cs with
  | nil => rfl
  | cons c rest ih =>
    rw [List.any_cons, Bool.or_eq_false_iff] at h
    unfold findNum
    rw [h.1]
    simp only [Bool.false_eq_true, if_false]
    exact ih h.2

theorem findNum_exists (cs : List Char) (h : cs.any Char.isDigit = true) :
    ∃ m, findNum cs = some m := by
  induction cs with
  | nil => cases h
  | cons c rest ih =>
    unfold findNum
    cases hd : c.isDigit with
    | true => exact ⟨_, rfl⟩
    | false =>
      rw [List.any_cons, hd, Bool.false_or] at h
      simpa using ih h

theorem numVal_nonneg (m : List Char) : 0 ≤ numVal m := by
  unfold numVal
  cases hr : (digitsTake m).2 with
  | nil => exact Rat.divInt_nonneg (Int.natCast_nonneg _) (by positivity)
  | cons c rest =>
    by_cases hc : c = '.'
    · subst hc
      simp only
      apply Rat.divInt_nonneg
      · positivity
      · positivity
    · simp only
      split
      · apply Rat.divInt_nonneg
        · positivity
        · positivity
      · exact Rat.divInt_nonneg (Int.natCast_nonneg _) (by positivity)

set_option maxRecDepth 8000 in
set_option exponentiation.threshold 1100 in
/-- C6 counterexample: the extractors do not stay finite on every
numeral-containing input. For the 309-digit numeral `"9" * 309`,
CPython's `float()` saturates to `inf` (the value exceeds the IEEE-double
overflow threshold), so `parse_price` returns `+infinity` although the
string contains a numeral, and `parse_rating` returns `+infinity` rather
than a finite float. -/
theorem C6_counterexample :
    hasDigit ⟨List.replicate 309 '9'⟩ = true
  ∧ parse_price ⟨List.replicate 309 '9'⟩ = PFloat.inf
  ∧ parse_rating ⟨List.replicate 309 '9'⟩ = PFloat.inf :=
  ⟨by decide, by decide, by decide⟩

/-- C6 as amended: over ASCII input strings (where the model's digit class
coincides with Python's `\d`), `parse_price` applied to a string containing
a numeral returns the exact non-negative value of the first matched numeral
when that value is below the IEEE-double overflow threshold, and `+infinity`
when the numeral's value reaches the threshold (`float()` saturates to `inf`
at `DBL_MAX` instead of raising); without a numeral it returns `+infinity`.
`parse_rating` behaves the same with the no-numeral default `0.0`. Both
extractors are total Lean functions — the Python `try`/`except` bodies are
unreachable, so neither can raise. -/
theorem C6_extractors (s : String) (_hascii : asciiOnly s = true) :
    (hasDigit s = true →
      ∃ m, findNum (pyStripL (removeCommas s.data)) = some m ∧
        0 ≤ numVal m ∧
        parse_price s = pyFloatOfNum (numVal m) ∧
        (numVal m < overflowBound → parse_price s = PFloat.fin (numVal m)) ∧
        (overflowBound ≤ numVal m → parse_price s = PFloat.inf))
  ∧ (hasDigit s = true →
      ∃ m, findNum (pyStripL s.data) = some m ∧
        0 ≤ numVal m ∧
        parse_rating s = pyFloatOfNum (numVal m) ∧
        (numVal m < overflowBound → parse_rating s = PFloat.fin (numVal m)) ∧
        (overflowBound ≤ numVal m → parse_rating s = PFloat.inf))
  ∧ (hasDigit s = false →
      parse_price s = PFloat.inf ∧ parse_rating s = PFloat.fin 0) := by
  refine ⟨?_, ?_, ?_⟩
  · intro h
    have hq : (pyStripL (removeCommas s.data)).any Char.isDigit = true := by
      rw [any_digit_strip, any_digit_removeCommas]
      exact h
    rcases findNum_exists _ hq with ⟨m, hm⟩
    refine ⟨m, hm, numVal_nonneg m, ?_, ?_, ?_⟩
    · unfold parse_price
      rw [hm]
    · intro hlt
      unfold parse_price
      rw [hm]
      show (if overflowBound ≤ numVal m then PFloat.inf else PFloat.fin (numVal m)) =
        PFloat.fin (numVal m)
      rw [if_neg (not_le_of_lt hlt)]
    · intro hge
      unfold parse_price
      rw [hm]
      show (if overflowBound ≤ numVal m then PFloat.inf else PFloat.fin (numVal m)) =
        PFloat.inf
      rw [if_pos hge]
  · intro h
    have hq : (pyStripL s.data).any Char.isDigit = true := by
      rw [any_digit_strip]
      exact h
    rcases findNum_exists _ hq with ⟨m, hm⟩
    refine ⟨m, hm, numVal_nonneg m, ?_, ?_, ?_⟩
    · unfold parse_rating
      rw [hm]
    · intro hlt
      unfold parse_rating
      rw [hm]
      show (if overflowBound ≤ numVal m then PFloat.inf else PFloat.fin (numVal m)) =
        PFloat.fin (numVal m)
      rw [if_neg (not_le_of_lt hlt)]
    · intro hge
      unfold parse_rating
      rw [hm]
      show (if overflowBound ≤ numVal m then PFloat.inf else PFloat.fin (numVal m)) =
        PFloat.inf
      rw [if_pos hge]
  · intro h
    have hp : (pyStripL (removeCommas s.data)).any Char.isDigit = false := by
      rw [any_digit_strip, any_digit_removeCommas]
      exact h
    have hs : (pyStripL s.data).any Char.isDigit = false := by
      rw [any_digit_strip]
      exact h
    constructor
    · unfold parse_price
      rw [findNum_eq_none _ hp]
    · unfold parse_rating
      rw [findNum_eq_none _ hs]

set_option maxRecDepth 8000 in
/-- Witness for C6 at concrete ASCII inputs: a noisy sub-threshold price
with a thousands separator, and a digit-free string. -/
theorem C6_witness :
    (asciiOnly "Rs. 1,299.50" = true ∧ hasDigit "Rs. 1,299.50" = true ∧
      ∃ m, findNum (pyStripL (removeCommas "Rs. 1,299.50".data)) = some m ∧
        0 ≤ numVal m ∧
        parse_price "Rs. 1,299.50" = pyFloatOfNum (numVal m) ∧
        (numVal m < overflowBound →
          parse_price "Rs. 1,299.50" = PFloat.fin (numVal m)) ∧
        (overflowBound ≤ numVal m → parse_price "Rs. 1,299.50" = PFloat.inf))
  ∧ (asciiOnly "no deals" = true ∧ hasDigit "no deals" = false ∧
      parse_price "no deals" = PFloat.inf ∧
      parse_rating "no deals" = PFloat.fin 0) :=
  ⟨⟨by decide, by decide,
    (C6_extractors "Rs. 1,299.50" (by decide)).1 (by decide)⟩,
   ⟨by decide, by decide,
    (C6_extractors "no deals" (by decide)).2.2 (by decide)⟩⟩

/-! ## C3: the parse boundary -/

theorem parseStage_raw (loads : String → Except Unit PyVal) (app raw : String) :
    (parseStage loads app raw).raw_response = raw := by
  unfold parseStage
  by_cases hb : startsWithBracket ⟨fenceStrip (pyStripL raw.data)⟩ = true
  · simp only [hb, if_true]
    cases parseAttempt loads ⟨fenceStrip (pyStripL raw.data)⟩ <;> rfl
  · simp only [hb]
    rfl

/-- C3 counterexample: on the raw text `"[1]"` the structured decode
succeeds (`json.loads` yields the list `[1]`), yet the normalization loop
raises on the non-dict candidate `1` and the batch is discarded inside the
`try`, so the result's status is `failed` — refuting "status is success iff
structured decode succeeded". -/
theorem C3_counterexample :
    jsonLoads "[1]" = .ok (.list [.num "1"])
  ∧ (parseStage jsonLoads "Amazon" "[1]").status = .failed
  ∧ (parseStage jsonLoads "Amazon" "[1]").items = []
  ∧ (parseStage jsonLoads "Amazon" "[1]").raw_response = "[1]" :=
  ⟨rfl, rfl, rfl, rfl⟩

/-- C3 as amended: the parse stage is a total function (no decode failure
escapes it); every failure path returns `status=failed`, empty items and the
original raw text; and the status is `success` iff the fence-stripped text
starts with `[` or `{`, the decode succeeds, and every decoded candidate
supports dict access (the normalization loop raises on non-object
candidates, which also lands the result in the `failed` state). -/
theorem C3_parse_boundary (loads : String → Except Unit PyVal)
    (app raw : String) :
    ((parseStage loads app raw).raw_response = raw)
  ∧ ((parseStage loads app raw).status = .failed →
      (parseStage loads app raw).items = [] ∧
        (parseStage loads app raw).best_item = none)
  ∧ ((parseStage loads app raw).status = .success ↔
      (startsWithBracket ⟨fenceStrip (pyStripL raw.data)⟩ = true ∧
        ∃ valid, parseAttempt loads ⟨fenceStrip (pyStripL raw.data)⟩ = .ok valid)) := by
  refine ⟨parseStage_raw loads app raw, ?_, ?_⟩ <;> unfold parseStage
  · by_cases hb : startsWithBracket ⟨fenceStrip (pyStripL raw.data)⟩ = true
    · simp only [hb, if_true]
      cases parseAttempt loads ⟨fenceStrip (pyStripL raw.data)⟩ with
      | error e => intro; exact ⟨rfl, rfl⟩
      | ok valid => intro h; cases h
    · simp only [hb]
      intro
      exact ⟨rfl, rfl⟩
  · cases hb : startsWithBracket ⟨fenceStrip (pyStripL raw.data)⟩ with
    | true =>
      cases hp : parseAttempt loads ⟨fenceStrip (pyStripL raw.data)⟩ with
      | error e => simp [hb, hp]
      | ok valid => simp [hb, hp]
    | false => simp [hb]

/-- Witness for C3 at spec scenario 1: a well-formed item list decodes, so
the status is `success`. -/
theorem C3_witness :
    (parseStage jsonLoads "Amazon"
      "[\x7b\"title\":\"Phone\",\"price\":\"$199.99\",\"rating\":\"4.5 stars\"\x7d]").status =
      .success :=
  (C3_parse_boundary jsonLoads "Amazon"
      "[\x7b\"title\":\"Phone\",\"price\":\"$199.99\",\"rating\":\"4.5 stars\"\x7d]").2.2.2
    ⟨rfl, ⟨_, rfl⟩⟩

/-! ## C1: agent faults and the session wrapper -/

/-- C1 counterexample: when the agent raises, `await agent.run()` is outside
the `try` of `perform_search`, so the fault propagates out of the wrapper
(no failed `SessionResult` is built), and the `for plat in platforms` loop of
`main_async` is taken down with it — the workflow aborts instead of
proceeding to the next platform. -/
theorem C1_counterexample :
    perform_search jsonLoads (fun _ => .error "agent fault") "Amazon" "phone"
      "product" = .error "agent fault"
  ∧ main_async jsonLoads (fun _ => .error "agent fault") .shopping "phone" =
      .error "agent fault" :=
  ⟨rfl, rfl⟩

/-- C1 as amended: a fault raised by the agent during execution propagates
out of `perform_search` unchanged (and aborts the surrounding workflow at the
first faulting platform), while for agent output that is delivered without a
fault the wrapper always returns a `SessionResult` whose `raw_response` is
the output text — only the parsing stage is protected by the `try`. -/
theorem C1_agent_fault (loads : String → Except Unit PyVal)
    (run : String → Except String String) (app query item_type : String) :
    (∀ e, run (buildGoal app query item_type) = .error e →
      perform_search loads run app query item_type = .error e)
  ∧ (∀ outp, run (buildGoal app query item_type) = .ok outp →
      perform_search loads run app query item_type =
        .ok (parseStage loads app outp) ∧
      (parseStage loads app outp).raw_response = outp)
  ∧ (∀ e, run (buildGoal "Amazon" query "product") = .error e →
      main_async loads run .shopping query = .error e) := by
  refine ⟨?_, ?_, ?_⟩
  · intro e h
    unfold perform_search
    rw [h]
  · intro outp h
    constructor
    · unfold perform_search
      rw [h]
    · exact parseStage_raw loads app outp
  · intro e h
    unfold main_async platformsOf runSessions perform_search
    simp only [h]

/-- Witness for C1: a fault-free agent run on one side, a faulting one on the
other. -/
theorem C1_witness :
    (perform_search jsonLoads (fun _ => .error "boom") "Amazon" "phone"
        "product" = .error "boom")
  ∧ (perform_search jsonLoads (fun _ => .ok "[]") "Amazon" "phone" "product" =
        .ok (parseStage jsonLoads "Amazon" "[]") ∧
      (parseStage jsonLoads "Amazon" "[]").raw_response = "[]") :=
  ⟨(C1_agent_fault jsonLoads (fun _ => .error "boom") "Amazon" "phone"
      "product").1 "boom" rfl,
   (C1_agent_fault jsonLoads (fun _ => .ok "[]") "Amazon" "phone"
      "product").2.1 "[]" rfl⟩

/-! ## C8: one session at a time -/

/-- C8 counterexample: the two background tasks created by two `POST /task`
requests are scheduled by `asyncio.create_task` with no shared gate anywhere
in `server.py`, so the cooperative scheduler may interleave their session
executions; this admissible interleaving has both sessions open at once. -/
theorem C8_counterexample :
    Interleave (serverTaskTrace 0) (serverTaskTrace 1)
      [.sbeg 0, .sbeg 1, .sfin 0, .sfin 1]
  ∧ serialized [.sbeg 0, .sbeg 1, .sfin 0, .sfin 1] = false :=
  ⟨.left (.right (.left (.right .nil))), rfl⟩

/-- C8 as amended: within one workflow the sessions are strictly sequential
(the platform loop awaits each `perform_search` before starting the next),
but across concurrently submitted tasks there is no shared admission point:
some admissible interleaving of two background tasks has two device-owning
sessions active at the same time. -/
theorem C8_serialization (t : Nat) (ps : List String) :
    serialized (mainSessionTrace t ps) = true
  ∧ ∃ tr, Interleave (serverTaskTrace 0) (serverTaskTrace 1) tr ∧
      serialized tr = false := by
  constructor
  · induction ps with
    | nil => rfl
    | cons p rest ih =>
      simpa [mainSessionTrace, serialized, serializedFrom] using ih
  · exact ⟨[.sbeg 0, .sbeg 1, .sfin 0, .sfin 1],
      .left (.right (.left (.right .nil))), rfl⟩


/-! ## Lemmas about `isPre`, `occursB` and `pySplit` -/

theorem isPre_refl (s : List Char) : isPre s s = true := by
  induction s with
  | nil => rfl
  | cons c rest ih => simp [isPre, ih]

theorem isPre_append_self (s t : List Char) : isPre s (s ++ t) = true := by
  induction s with
  | nil => rfl
  | cons c rest ih => simp [isPre, ih]

theorem isPre_length_le {a b : List Char} (h : isPre a b = true) :
    a.length ≤ b.length := by
  induction a generalizing b with
  | nil => simp
  | cons c rest ih =>
    cases b with
    | nil => cases h
    | cons d bs =>
      simp only [isPre, Bool.and_eq_true_iff, decide_eq_true_eq] at h
      simpa using ih h.2

theorem isPre_mem {a b : List Char} (h : isPre a b = true) : ∀ c ∈ a, c ∈ b := by
  induction a generalizing b with
  | nil => intro c hc; cases hc
  | cons x rest ih =>
    cases b with
    | nil => cases h
    | cons d bs =>
      simp only [isPre, Bool.and_eq_true_iff, decide_eq_true_eq] at h
      intro c hc
      rcases List.mem_cons.1 hc with rfl | hm
      · exact h.1 ▸ List.mem_cons_self d bs
      · exact List.mem_cons_of_mem d (ih h.2 c hm)

theorem isPre_extend {a b : List Char} (z : List Char) (h : isPre a b = true) :
    isPre a (b ++ z) = true := by
  induction a generalizing b with
  | nil => rfl
  | cons c rest ih =>
    cases b with
    | nil => cases h
    | cons d bs =>
      simp only [isPre, Bool.and_eq_true_iff, decide_eq_true_eq] at h
      simp [isPre, h.1, ih h.2]

theorem isPre_append_left {a b t : List Char} (h : isPre (a ++ b) t = true) :
    isPre a t = true := by
  induction a generalizing t with
  | nil => rfl
  | cons c rest ih =>
    cases t with
    | nil => cases h
    | cons d ts =>
      simp only [List.cons_append, isPre, Bool.and_eq_true_iff,
        decide_eq_true_eq] at h
      simp [isPre, h.1, ih h.2]

theorem isPre_split {sep ys zs : List Char} (h : isPre sep (ys ++ zs) = true) :
    isPre sep ys = true ∨
      (isPre ys sep = true ∧ isPre (sep.drop ys.length) zs = true) := by
  induction ys generalizing sep with
  | nil => exact Or.inr ⟨rfl, h⟩
  | cons y ys2 ih =>
    cases sep with
    | nil => exact Or.inl rfl
    | cons s sep2 =>
      simp only [List.cons_append, isPre, Bool.and_eq_true_iff,
        decide_eq_true_eq] at h
      rcases ih h.2 with h1 | ⟨h1, h2⟩
      · exact Or.inl (by simp [isPre, h.1, h1])
      · refine Or.inr ⟨by simp [isPre, h.1.symm, h1], ?_⟩
        simpa using h2

theorem isPre_eq_of_length {a b : List Char} (h : isPre a b = true)
    (hl : b.length ≤ a.length) : a = b := by
  induction a generalizing b with
  | nil =>
    cases b with
    | nil => rfl
    | cons d bs => simp at hl
  | cons c rest ih =>
    cases b with
    | nil => cases h
    | cons d bs =>
      simp only [isPre, Bool.and_eq_true_iff, decide_eq_true_eq] at h
      simp only [List.length_cons, Nat.add_le_add_iff_right] at hl
      rw [h.1, ih h.2 hl]

theorem occursB_of_isPre {sep t : List Char} (h : isPre sep t = true) :
    occursB sep t = true := by
  cases t with
  | nil => exact h
  | cons c rest => simp [occursB, h]

theorem occursB_suffix_false {sep cs t : List Char}
    (h : occursB sep cs = false) (hs : t <:+ cs) : occursB sep t = false := by
  induction cs generalizing t with
  | nil =>
    rcases hs with ⟨w, hw⟩
    rcases List.append_eq_nil.1 hw with ⟨rfl, rfl⟩
    exact h
  | cons c rest ih =>
    rw [occursB, Bool.or_eq_false_iff] at h
    rcases List.suffix_cons_iff.1 hs with rfl | hsuf
    · rw [occursB, Bool.or_eq_false_iff]
      exact ⟨h.1, h.2⟩
    · exact ih h.2 hsuf

theorem occursB_extend {sep t : List Char} (r : List Char)
    (h : occursB sep t = true) : occursB sep (t ++ r) = true := by
  induction t with
  | nil =>
    rw [List.nil_append]
    exact occursB_of_isPre (by
      cases sep with
      | nil => rfl
      | cons s ss => cases h)
  | cons c rest ih =>
    rw [occursB, Bool.or_eq_true_iff] at h
    rw [List.cons_append, occursB, Bool.or_eq_true_iff]
    rcases h with h | h
    · exact Or.inl (by
        have := isPre_extend r h
        simpa using this)
    · exact Or.inr (ih h)

theorem occursB_take_false {sep cs t r : List Char}
    (h : occursB sep cs = false) (he : t ++ r = cs) : occursB sep t = false := by
  cases hx : occursB sep t with
  | false => rfl
  | true =>
    rw [← he] at h
    rw [occursB_extend r hx] at h
    cases h

theorem occursB_append_false_iff (sep A B : List Char) :
    occursB sep (A ++ B) = false ↔
      occursB sep B = false ∧
        ∀ t, t <:+ A → t ≠ [] → isPre sep (t ++ B) = false := by
  induction A with
  | nil =>
    simp only [List.nil_append]
    constructor
    · intro h
      refine ⟨h, ?_⟩
      intro t ht hne
      rcases ht with ⟨w, hw⟩
      rcases List.append_eq_nil.1 hw with ⟨rfl, rfl⟩
      exact absurd rfl hne
    · exact fun h => h.1
  | cons a A2 ih =>
    rw [List.cons_append, occursB, Bool.or_eq_false_iff, ih]
    constructor
    · rintro ⟨h1, h2, h3⟩
      refine ⟨h2, ?_⟩
      intro t ht hne
      rcases List.suffix_cons_iff.1 ht with rfl | hsuf
      · simpa using h1
      · exact h3 t hsuf hne
    · rintro ⟨h1, h2⟩
      refine ⟨?_, h1, ?_⟩
      · have := h2 (a :: A2) (List.suffix_refl _) (by simp)
        simpa using this
      · intro t ht hne
        exact h2 t (ht.trans (List.suffix_cons a A2)) hne

theorem splitFirst_eq_none {sep cs : List Char} (h : occursB sep cs = false) :
    splitFirst sep cs = none := by
  induction cs with
  | nil => rfl
  | cons c rest ih =>
    rw [occursB, Bool.or_eq_false_iff] at h
    unfold splitFirst
    rw [h.1]
    simp only [Bool.false_eq_true, if_false, ih h.2, Option.map_none']

theorem pySplitF_noocc {sep cs : List Char} (h : occursB sep cs = false)
    (f : Nat) : pySplitF sep f cs = [cs] := by
  cases f with
  | zero => rfl
  | succ f2 =>
    unfold pySplitF
    rw [splitFirst_eq_none h]

theorem pySplitF_nil (sep : List Char) (f : Nat) : pySplitF sep f [] = [[]] := by
  cases f with
  | zero => rfl
  | succ f2 => rfl

theorem splitFirst_sep_start (s0 : Char) (srest rest : List Char) :
    splitFirst (s0 :: srest) ((s0 :: srest) ++ rest) = some ([], rest) := by
  have hp : isPre (s0 :: srest) ((s0 :: srest) ++ rest) = true :=
    isPre_append_self _ _
  rw [List.cons_append]
  unfold splitFirst
  rw [show isPre (s0 :: srest) (s0 :: (srest ++ rest)) = true from hp]
  simp only [if_true]
  have : (s0 :: (srest ++ rest)).drop (s0 :: srest).length = rest := by
    have h2 := List.drop_left (s0 :: srest) rest
    simp only [List.cons_append] at h2
    exact h2
  rw [this]

theorem splitFirst_append_sep (s0 : Char) (srest X : List Char)
    (h : ∀ t, t <:+ X → t ≠ [] → isPre (s0 :: srest) (t ++ (s0 :: srest)) = false) :
    splitFirst (s0 :: srest) (X ++ (s0 :: srest)) = some (X, []) := by
  induction X with
  | nil =>
    rw [List.nil_append]
    have := splitFirst_sep_start s0 srest []
    simpa using this
  | cons x X2 ih =>
    have hx : isPre (s0 :: srest) ((x :: X2) ++ (s0 :: srest)) = false :=
      h (x :: X2) (List.suffix_refl _) (by simp)
    rw [List.cons_append]
    unfold splitFirst
    rw [show isPre (s0 :: srest) (x :: (X2 ++ s0 :: srest)) = false by
      simpa using hx]
    simp only [Bool.false_eq_true, if_false]
    rw [ih (fun t ht hne => h t (ht.trans (List.suffix_cons x X2)) hne)]
    rfl

theorem pySplit_ne {sep : List Char} (cs : List Char) (h : sep ≠ []) :
    pySplit sep cs = pySplitF sep (cs.length + 1) cs := by
  cases sep with
  | nil => exact absurd rfl h
  | cons s ss => rfl

theorem getLast?_suffix {t l : List Char} (h : t <:+ l) (hne : t ≠ []) :
    t.getLast? = l.getLast? := by
  rcases h with ⟨w, hw⟩
  rw [← hw, List.getLast?_append]
  cases hx : t.getLast? with
  | none => exact absurd (List.getLast?_eq_none_iff.1 hx) hne
  | some a => rfl

theorem mem_of_getLast_eq {l : List Char} {a : Char} (h : l.getLast? = some a) :
    a ∈ l := by
  induction l with
  | nil => cases h
  | cons c rest ih =>
    cases hr : rest with
    | nil => simp_all
    | cons d ds =>
      rw [hr] at ih h
      rw [List.getLast?_cons_cons] at h
      exact List.mem_cons_of_mem c (ih h)


/-! ## C9: the fence round-trip -/

theorem isPre_cons_ne {c d : Char} (hne : c ≠ d) (a b : List Char) :
    isPre (c :: a) (d :: b) = false := by
  simp only [isPre, Bool.and_eq_false_iff, decide_eq_false_iff_not]
  exact Or.inl hne

theorem occursB_append_left {a b cs : List Char}
    (h : occursB (a ++ b) cs = true) : occursB a cs = true := by
  induction cs with
  | nil => exact isPre_append_left h
  | cons c r ih =>
    rw [occursB, Bool.or_eq_true_iff] at h ⊢
    rcases h with h | h
    · exact Or.inl (isPre_append_left h)
    · exact Or.inr (ih h)

theorem no_fenceJson_of_no_fence3 {cs : List Char}
    (h : occursB fence3 cs = false) : occursB fenceJson cs = false := by
  cases hx : occursB fenceJson cs with
  | false => rfl
  | true =>
    have h2 : occursB (fence3 ++ ('j' :: 's' :: 'o' :: 'n' :: [])) cs = true := hx
    rw [occursB_append_left h2] at h
    cases h

theorem occursB_of_suffix_isPre {sep cs t : List Char} (ht : t <:+ cs)
    (h : isPre sep t = true) : occursB sep cs = true := by
  cases hy : occursB sep cs with
  | true => rfl
  | false =>
    have h3 := occursB_of_isPre h
    rw [occursB_suffix_false hy ht] at h3
    cases h3

theorem occursB_nl_cons {sep : List Char} {text : List Char}
    (hhead : isPre sep ('\n' :: text) = false)
    (h : occursB sep text = false) : occursB sep ('\n' :: text) = false := by
  rw [occursB, Bool.or_eq_false_iff]
  exact ⟨hhead, h⟩

theorem fenceJson_drop_head (k : Nat) (h1 : 1 ≤ k) (h2 : k < 7)
    (zs : List Char) : isPre (fenceJson.drop k) ('\n' :: zs) = false := by
  interval_cases k <;> exact isPre_cons_ne (by decide) _ _

theorem fence3_drop_head (k : Nat) (h1 : 1 ≤ k) (h2 : k < 3)
    (zs : List Char) : isPre (fence3.drop k) ('\n' :: zs) = false := by
  interval_cases k <;> exact isPre_cons_ne (by decide) _ _

theorem tail_no_fenceJson {text : List Char} (h : occursB fence3 text = false) :
    occursB fenceJson (('\n' :: text) ++ ('\n' :: fence3)) = false := by
  rw [occursB_append_false_iff]
  refine ⟨by decide, ?_⟩
  intro t ht hne
  cases hx : isPre fenceJson (t ++ '\n' :: fence3) with
  | false => rfl
  | true =>
    exfalso
    have hnlt : occursB fenceJson ('\n' :: text) = false :=
      occursB_nl_cons (isPre_cons_ne (by decide) _ _)
        (no_fenceJson_of_no_fence3 h)
    rcases isPre_split hx with h1 | ⟨h1, h2⟩
    · rw [occursB_of_suffix_isPre ht h1] at hnlt
      cases hnlt
    · rcases Nat.lt_or_ge t.length 7 with hl | hl
      · have hk1 : 1 ≤ t.length := by
          cases t with
          | nil => exact absurd rfl hne
          | cons _ _ => simp
        rw [fenceJson_drop_head t.length hk1 hl fence3] at h2
        cases h2
      · have ht7 : t = fenceJson := isPre_eq_of_length h1 hl
        rw [occursB_of_suffix_isPre ht (ht7 ▸ isPre_refl t)] at hnlt
        cases hnlt

theorem X_no_fence3 {text : List Char} (h : occursB fence3 text = false) :
    occursB fence3 (('\n' :: text) ++ ['\n']) = false := by
  rw [occursB_append_false_iff]
  refine ⟨by decide, ?_⟩
  intro t ht hne
  cases hx : isPre fence3 (t ++ ['\n']) with
  | false => rfl
  | true =>
    exfalso
    have hnlt : occursB fence3 ('\n' :: text) = false :=
      occursB_nl_cons (isPre_cons_ne (by decide) _ _) h
    rcases isPre_split hx with h1 | ⟨h1, h2⟩
    · rw [occursB_of_suffix_isPre ht h1] at hnlt
      cases hnlt
    · rcases Nat.lt_or_ge t.length 3 with hl | hl
      · have hk1 : 1 ≤ t.length := by
          cases t with
          | nil => exact absurd rfl hne
          | cons _ _ => simp
        rw [fence3_drop_head t.length hk1 hl []] at h2
        cases h2
      · have ht3 : t = fence3 := isPre_eq_of_length h1 hl
        rw [occursB_of_suffix_isPre ht (ht3 ▸ isPre_refl t)] at hnlt
        cases hnlt

theorem X_straddle_free {text : List Char} (h : occursB fence3 text = false) :
    ∀ t, t <:+ (('\n' :: text) ++ ['\n']) → t ≠ [] →
      isPre fence3 (t ++ fence3) = false := by
  intro t ht hne
  cases hx : isPre fence3 (t ++ fence3) with
  | false => rfl
  | true =>
    exfalso
    have hXno : occursB fence3 (('\n' :: text) ++ ['\n']) = false := X_no_fence3 h
    rcases isPre_split hx with h1 | ⟨h1, h2⟩
    · rw [occursB_of_suffix_isPre ht h1] at hXno
      cases hXno
    · have hlast : t.getLast? = some '\n' := by
        rw [getLast?_suffix ht hne]
        exact List.getLast?_concat ..
      have hmem : ('\n' : Char) ∈ t := mem_of_getLast_eq hlast
      have hmem3 : ('\n' : Char) ∈ fence3 := isPre_mem h1 '\n' hmem
      exact absurd hmem3 (by decide)

theorem pySplitF_start_noocc (sep T : List Char) (f : Nat) (hsep : sep ≠ [])
    (hT : occursB sep T = false) : pySplitF sep (f + 1) (sep ++ T) = [[], T] := by
  cases sep with
  | nil => exact absurd rfl hsep
  | cons s0 ss =>
    unfold pySplitF
    rw [splitFirst_sep_start s0 ss T]
    simp only
    rw [pySplitF_noocc hT f]

theorem pySplitF_append_sep (s0 : Char) (ss X : List Char) (f : Nat)
    (h : ∀ t, t <:+ X → t ≠ [] → isPre (s0 :: ss) (t ++ (s0 :: ss)) = false) :
    pySplitF (s0 :: ss) (f + 1) (X ++ (s0 :: ss)) = [X, []] := by
  unfold pySplitF
  rw [splitFirst_append_sep s0 ss X h]
  simp only
  rw [pySplitF_nil]

theorem split_wrapped_first {text : List Char} (h : occursB fence3 text = false) :
    pySplit fenceJson (fenceJson ++ (('\n' :: text) ++ ('\n' :: fence3))) =
      [[], ('\n' :: text) ++ ('\n' :: fence3)] := by
  rw [pySplit_ne _ (by decide)]
  exact pySplitF_start_noocc _ _ _ (by decide) (tail_no_fenceJson h)

theorem split_wrapped_second {text : List Char} (h : occursB fence3 text = false) :
    pySplit fence3 ((('\n' :: text) ++ ['\n']) ++ fence3) =
      [('\n' :: text) ++ ['\n'], []] := by
  rw [pySplit_ne _ (by decide)]
  exact pySplitF_append_sep '`' ['`', '`'] _ _ (X_straddle_free h)

theorem pyStripL_cons_ws {c : Char} (hc : pyIsSpace c = true) (cs : List Char) :
    pyStripL (c :: cs) = pyStripL cs := by
  unfold pyStripL dropWs
  rw [List.dropWhile_cons_of_pos hc]

theorem pyStripL_concat_ws {c : Char} (hc : pyIsSpace c = true) (cs : List Char) :
    pyStripL (cs ++ [c]) = pyStripL cs := by
  unfold pyStripL dropWs
  rw [List.dropWhile_append]
  by_cases he : (cs.dropWhile pyIsSpace).isEmpty
  · rw [if_pos he]
    rw [List.isEmpty_iff] at he
    rw [he]
    have hnil : ([c] : List Char).dropWhile pyIsSpace = [] := by
      rw [List.dropWhile_cons_of_pos hc]
      rfl
    rw [hnil]
  · rw [if_neg he]
    rw [List.reverse_append]
    rw [List.reverse_singleton, List.singleton_append]
    rw [List.dropWhile_cons_of_pos hc]

theorem pyStripL_X {text : List Char} :
    pyStripL (('\n' :: text) ++ ['\n']) = pyStripL text := by
  have h1 : ('\n' :: text) ++ ['\n'] = '\n' :: (text ++ ['\n']) := rfl
  rw [h1, pyStripL_cons_ws (by decide), pyStripL_concat_ws (by decide)]


theorem getLast?_append_ne {l1 l2 : List Char} (h : l2 ≠ []) :
    (l1 ++ l2).getLast? = l2.getLast? := by
  rw [List.getLast?_append]
  cases hx : l2.getLast? with
  | none => exact absurd (List.getLast?_eq_none_iff.1 hx) h
  | some a => rfl

theorem pyStripL_eq_self {cs : List Char}
    (hh : ∀ c, cs.head? = some c → pyIsSpace c = false)
    (hl : ∀ c, cs.getLast? = some c → pyIsSpace c = false) :
    pyStripL cs = cs := by
  unfold pyStripL dropWs
  have h1 : cs.dropWhile pyIsSpace = cs := by
    cases cs with
    | nil => rfl
    | cons c rest => exact List.dropWhile_cons_of_neg (by simp [hh c rfl])
  rw [h1]
  have h2 : cs.reverse.dropWhile pyIsSpace = cs.reverse := by
    cases hrev : cs.reverse with
    | nil => rfl
    | cons c rest =>
      have hc : cs.getLast? = some c := by
        rw [← List.head?_reverse, hrev]
        rfl
      rw [List.dropWhile_cons_of_neg (by simp [hl c hc])]
  rw [h2, List.reverse_reverse]

theorem occursB_strip_false {sep cs : List Char}
    (h : occursB sep cs = false) : occursB sep (pyStripL cs) = false := by
  unfold pyStripL dropWs
  have h1 : occursB sep (cs.dropWhile pyIsSpace) = false :=
    occursB_suffix_false h (List.dropWhile_suffix pyIsSpace)
  have hsuf : ((cs.dropWhile pyIsSpace).reverse.dropWhile pyIsSpace) <:+
      (cs.dropWhile pyIsSpace).reverse := List.dropWhile_suffix pyIsSpace
  rcases hsuf with ⟨w, hw⟩
  apply occursB_take_false h1
  show ((cs.dropWhile pyIsSpace).reverse.dropWhile pyIsSpace).reverse ++ w.reverse
      = cs.dropWhile pyIsSpace
  rw [← List.reverse_append, hw, List.reverse_reverse]

theorem fenceStrip_plain {cs : List Char} (h : occursB fence3 cs = false) :
    fenceStrip cs = cs := by
  unfold fenceStrip
  rw [no_fenceJson_of_no_fence3 h, h]
  rfl

theorem fenceStrip_wrapped {text : List Char} (h : occursB fence3 text = false) :
    fenceStrip (fenceJson ++ (('\n' :: text) ++ ('\n' :: fence3))) =
      pyStripL text := by
  have hocc :
      occursB fenceJson (fenceJson ++ (('\n' :: text) ++ ('\n' :: fence3))) = true :=
    occursB_of_isPre (isPre_append_self _ _)
  unfold fenceStrip
  rw [hocc]
  simp only [if_true]
  rw [split_wrapped_first h]
  have hT : (('\n' :: text) ++ ('\n' :: fence3)) =
      ((('\n' :: text) ++ ['\n']) ++ fence3) := by
    simp [List.append_assoc]
  have hgd : ([[], ('\n' :: text) ++ ('\n' :: fence3)].getD 1 []) =
      (('\n' :: text) ++ ('\n' :: fence3)) := rfl
  rw [hgd, hT, split_wrapped_second h]
  have hgd0 : ([('\n' :: text) ++ ['\n'], []].getD 0 []) =
      (('\n' :: text) ++ ['\n']) := rfl
  rw [hgd0, pyStripL_X]


theorem parseStage_congr (loads : String → Except Unit PyVal) (app : String)
    {a b : String}
    (h : fenceStrip (pyStripL a.data) = fenceStrip (pyStripL b.data)) :
    (parseStage loads app a).status = (parseStage loads app b).status
  ∧ (parseStage loads app a).items = (parseStage loads app b).items
  ∧ (parseStage loads app a).best_item = (parseStage loads app b).best_item := by
  unfold parseStage
  rw [h]
  cases hb : startsWithBracket ⟨fenceStrip (pyStripL b.data)⟩ with
  | true =>
    simp only [hb, if_true]
    cases parseAttempt loads ⟨fenceStrip (pyStripL b.data)⟩ with
    | error e => exact ⟨rfl, rfl, rfl⟩
    | ok valid => exact ⟨rfl, rfl, rfl⟩
  | false =>
    simp only [hb, Bool.false_eq_true, if_false]
    exact ⟨trivial, trivial, trivial⟩

theorem wrapJson_data (text : String) :
    (wrapJson text).data =
      fenceJson ++ (('\n' :: text.data) ++ ('\n' :: fence3)) := by
  unfold wrapJson
  rw [String.data_append, String.data_append]
  have h1 : "```json\n".data = fenceJson ++ ['\n'] := rfl
  have h2 : "\n```".data = '\n' :: fence3 := rfl
  rw [h1, h2]
  simp [List.append_assoc]

/-- C9 counterexample: the item-list text
`[{"title":"```json [] ```","price":"1","rating":"0"}]` is a valid JSON item
list (shown by the decoder), and parsing it unwrapped yields `success`
(the fence-stripping heuristic extracts the interior `[]` of the backticks
inside the title), but wrapping the same text in a json-tagged fence and
parsing yields `failed` — the two parses are not semantically equal, because
the naive `split`-based stripping cuts at the first fence marker inside the
item data. -/
theorem C9_counterexample :
    jsonLoads "[\x7b\"title\":\"```json [] ```\",\"price\":\"1\",\"rating\":\"0\"\x7d]" =
      .ok (.list [.dict [("title", .str "```json [] ```"), ("price", .str "1"),
        ("rating", .str "0")]])
  ∧ (parseStage jsonLoads "Amazon"
      "[\x7b\"title\":\"```json [] ```\",\"price\":\"1\",\"rating\":\"0\"\x7d]").status =
      .success
  ∧ (parseStage jsonLoads "Amazon"
      (wrapJson "[\x7b\"title\":\"```json [] ```\",\"price\":\"1\",\"rating\":\"0\"\x7d]")).status =
      .failed :=
  ⟨rfl, rfl, rfl⟩

/-- C9 as amended: for every item-list text that does not itself contain the
fence marker ```` ``` ````, wrapping it in a fenced code block with the json
fence tag and parsing yields exactly the same status, item list (same titles
and numeric price/rating) and best item as parsing the unwrapped text; only
`raw_response` differs. Texts containing the fence marker are excluded, as
the counterexample shows the naive split-based stripping breaks on them. -/
theorem C9_fence_roundtrip (loads : String → Except Unit PyVal)
    (app text : String) (h : occursB fence3 text.data = false) :
    (parseStage loads app (wrapJson text)).status =
      (parseStage loads app text).status
  ∧ (parseStage loads app (wrapJson text)).items =
      (parseStage loads app text).items
  ∧ (parseStage loads app (wrapJson text)).best_item =
      (parseStage loads app text).best_item := by
  apply parseStage_congr
  rw [wrapJson_data]
  have hself : pyStripL (fenceJson ++ (('\n' :: text.data) ++ ('\n' :: fence3))) =
      fenceJson ++ (('\n' :: text.data) ++ ('\n' :: fence3)) := by
    apply pyStripL_eq_self
    · intro c hc
      have hhd : (fenceJson ++ (('\n' :: text.data) ++ ('\n' :: fence3))).head? =
          some '`' := rfl
      rw [hhd] at hc
      cases hc
      decide
    · intro c hc
      have hlast : (fenceJson ++ (('\n' :: text.data) ++ ('\n' :: fence3))).getLast? =
          some '`' := by
        rw [getLast?_append_ne (by simp)]
        rw [getLast?_append_ne (by simp)]
        rfl
      rw [hlast] at hc
      cases hc
      decide
  rw [hself, fenceStrip_wrapped h, fenceStrip_plain (occursB_strip_false h)]

/-- Witness for C9 at spec scenario 1's item list, which contains no fence
marker. -/
theorem C9_witness :
    (occursB fence3
      "[\x7b\"title\":\"Phone\",\"price\":\"$199.99\",\"rating\":\"4.5 stars\"\x7d]".data =
      false)
  ∧ ((parseStage jsonLoads "Amazon"
        (wrapJson "[\x7b\"title\":\"Phone\",\"price\":\"$199.99\",\"rating\":\"4.5 stars\"\x7d]")).status =
      (parseStage jsonLoads "Amazon"
        "[\x7b\"title\":\"Phone\",\"price\":\"$199.99\",\"rating\":\"4.5 stars\"\x7d]").status
    ∧ (parseStage jsonLoads "Amazon"
        (wrapJson "[\x7b\"title\":\"Phone\",\"price\":\"$199.99\",\"rating\":\"4.5 stars\"\x7d]")).items =
      (parseStage jsonLoads "Amazon"
        "[\x7b\"title\":\"Phone\",\"price\":\"$199.99\",\"rating\":\"4.5 stars\"\x7d]").items
    ∧ (parseStage jsonLoads "Amazon"
        (wrapJson "[\x7b\"title\":\"Phone\",\"price\":\"$199.99\",\"rating\":\"4.5 stars\"\x7d]")).best_item =
      (parseStage jsonLoads "Amazon"
        "[\x7b\"title\":\"Phone\",\"price\":\"$199.99\",\"rating\":\"4.5 stars\"\x7d]").best_item) :=
  ⟨by decide,
   C9_fence_roundtrip jsonLoads "Amazon"
     "[\x7b\"title\":\"Phone\",\"price\":\"$199.99\",\"rating\":\"4.5 stars\"\x7d]"
     (by decide)⟩

end DevRunAuto
